import Mathlib

/-!
Shallow embedding of the medal-tracker repository (src/medal_events.py and
src/olympic-dash.py) together with proofs about the claims of its
specification.  Text is modelled as a list of Unicode code points
(ASCII range in all concrete data), so that every text operation of the
Python source (regex whitespace collapse, footnote-marker removal, case
folding, suffix and whole-word country search) becomes an executable
function on `List Nat`.
-/

/-- Txt models a Python string as its list of code points. -/
abbrev Txt := List Nat

/-- Code points of a Lean string literal, used to write concrete inputs. -/
def enc (s : String) : Txt := s.data.map (fun c => c.toNat)

/-- Whitespace test matching the characters covered by the regex class \s
and by str.strip in the ASCII range: space, tab, newline, carriage
return, vertical tab, form feed. -/
def isWsChar (c : Nat) : Bool := decide (c = 32 ∨ c = 9 ∨ c = 10 ∨ c = 13 ∨ c = 11 ∨ c = 12)

/-- ASCII lower-casing of one code point, modelling str.lower. -/
def lowerChar (c : Nat) : Nat := if 65 ≤ c ∧ c ≤ 90 then c + 32 else c

/-- ASCII upper-casing of one code point, modelling str.upper. -/
def upperChar (c : Nat) : Nat := if 97 ≤ c ∧ c ≤ 122 then c - 32 else c

/-- Model of str.lower. -/
def toLowerT (t : Txt) : Txt := t.map lowerChar

/-- Model of str.upper. -/
def toUpperT (t : Txt) : Txt := t.map upperChar

/-- Model of str.strip with no arguments: remove leading and trailing
whitespace. -/
def stripT (t : Txt) : Txt := ((t.dropWhile isWsChar).reverse.dropWhile isWsChar).reverse

/-- Worker for `collapseWs`.  The flag records whether the previously read
character belonged to a whitespace run, so that each maximal run is
replaced by a single space, exactly as re.sub maps every maximal match of
one-or-more whitespace characters to one space. -/
def collapseWsAux : Bool → Txt → Txt
  | _, [] => []
  | prevWs, c :: cs =>
    if isWsChar c then
      if prevWs then collapseWsAux true cs else 32 :: collapseWsAux true cs
    else c :: collapseWsAux false cs

/-- Model of re.sub applied with the whitespace-run pattern and a single
space as replacement. -/
def collapseWs (t : Txt) : Txt := collapseWsAux false t

/-- Worker for `stripFootnotes`, a state machine for re.sub applied with
the bracketed-footnote pattern (an opening bracket, one or more
characters none of which is a closing bracket, then a closing bracket)
and the empty replacement.  The first argument is the pending text read
since an opening bracket (empty when scanning outside a candidate
match); on end of input an unclosed candidate is restored verbatim, as
the regex engine finds no match there. -/
def stripFnAux : Txt → Txt → Txt
  | pending, [] => pending
  | [], c :: cs => if c = 91 then stripFnAux [91] cs else c :: stripFnAux [] cs
  | p :: ps, c :: cs =>
    if c = 93 then
      if ps.isEmpty then 91 :: 93 :: stripFnAux [] cs
      else stripFnAux [] cs
    else stripFnAux (p :: ps ++ [c]) cs

/-- Model of re.sub removing bracketed footnote markers. -/
def stripFootnotes (t : Txt) : Txt := stripFnAux [] t

/-- Characters removed by str.strip with the separator argument used in
the athlete cell splitter: space, comma, semicolon, colon, dash. -/
def isSepChar (c : Nat) : Bool := decide (c = 32 ∨ c = 44 ∨ c = 59 ∨ c = 58 ∨ c = 45)

/-- Model of str.strip with the separator set of `isSepChar`. -/
def stripSeps (t : Txt) : Txt := ((t.dropWhile isSepChar).reverse.dropWhile isSepChar).reverse

/-- Worker for `replaceDrop` with explicit fuel (one unit per scanned
position suffices, the fuel never runs out when initialised with the
length of the text). -/
def replaceDropFuel (pat : Txt) : Nat → Txt → Txt
  | _, [] => []
  | 0, t => t
  | fuel + 1, c :: cs =>
    if pat.isPrefixOf (c :: cs) then replaceDropFuel pat fuel (cs.drop (pat.length - 1))
    else c :: replaceDropFuel pat fuel cs

/-- Model of str.replace with the empty string as replacement: remove
every non-overlapping occurrence of the pattern, scanning left to
right. -/
def replaceDrop (pat t : Txt) : Txt := replaceDropFuel pat t.length t

/-- Word-character test matching the regex class \w in the ASCII range. -/
def isWordChar (c : Nat) : Bool :=
  decide ((48 ≤ c ∧ c ≤ 57) ∨ (65 ≤ c ∧ c ≤ 90) ∨ (97 ≤ c ∧ c ≤ 122) ∨ c = 95)

/-- Word-character test at a position of a text, out-of-range positions
counting as non-word. -/
def wordAt (hay : Txt) (j : Nat) : Bool :=
  match hay.get? j with
  | some c => isWordChar c
  | none => false

/-- Model of the regex word-boundary assertion at position j: the
word-character status differs between the character before j and the
character at j, the edges of the text counting as non-word. -/
def boundaryAt (hay : Txt) (j : Nat) : Bool :=
  (if j = 0 then false else wordAt hay (j - 1)) != wordAt hay j

/-- Test whether the whole-word pattern (the country name wrapped in
word-boundary assertions) matches the haystack at position i. -/
def matchAt (hay pat : Txt) (i : Nat) : Bool :=
  pat.isPrefixOf (hay.drop i) && boundaryAt hay i && boundaryAt hay (i + pat.length)

/-- Worker for `finditerLast` with explicit fuel: scan positions left to
right, record each match and resume after it, exactly like re.finditer
followed by keeping the last yielded match. -/
def finditerFrom (hay pat : Txt) : Nat → Nat → Option Nat → Option Nat
  | 0, _, best => best
  | fuel + 1, i, best =>
    if hay.length < i + pat.length then best
    else if matchAt hay pat i then finditerFrom hay pat fuel (i + max pat.length 1) (some i)
    else finditerFrom hay pat fuel (i + 1) best

/-- Start position of the last whole-word occurrence of the pattern in
the haystack, if any. -/
def finditerLast (hay pat : Txt) : Option Nat := finditerFrom hay pat (hay.length + 1) 0 none

/-! ## medal_events.py -/

/-- COUNTRY_TO_NOC of src/medal_events.py, in source insertion order
(Python dictionaries preserve insertion order). -/
def COUNTRY_TO_NOC : List (Txt × Txt) :=
  [(enc (r"norway"), enc (r"NOR")), (enc (r"united states"), enc (r"USA")),
   (enc (r"italy"), enc (r"ITA")), (enc (r"japan"), enc (r"JPN")),
   (enc (r"austria"), enc (r"AUT")), (enc (r"germany"), enc (r"GER")),
   (enc (r"czech republic"), enc (r"CZE")), (enc (r"czechia"), enc (r"CZE")),
   (enc (r"france"), enc (r"FRA")), (enc (r"sweden"), enc (r"SWE")),
   (enc (r"switzerland"), enc (r"SUI")), (enc (r"canada"), enc (r"CAN")),
   (enc (r"netherlands"), enc (r"NED")), (enc (r"the netherlands"), enc (r"NED")),
   (enc (r"holland"), enc (r"NED")), (enc (r"china"), enc (r"CHN")),
   (enc (r"poland"), enc (r"POL")), (enc (r"south korea"), enc (r"KOR")),
   (enc (r"korea"), enc (r"KOR")), (enc (r"finland"), enc (r"FIN")),
   (enc (r"new zealand"), enc (r"NZL")), (enc (r"slovenia"), enc (r"SLO")),
   (enc (r"australia"), enc (r"AUS")), (enc (r"great britain"), enc (r"GBR")),
   (enc (r"united kingdom"), enc (r"GBR")), (enc (r"britain"), enc (r"GBR")),
   (enc (r"belgium"), enc (r"BEL")), (enc (r"hungary"), enc (r"HUN")),
   (enc (r"slovakia"), enc (r"SVK")), (enc (r"bulgaria"), enc (r"BUL")),
   (enc (r"latvia"), enc (r"LAT")), (enc (r"russia"), enc (r"RUS")),
   (enc (r"roc"), enc (r"RUS")), (enc (r"spain"), enc (r"ESP")),
   (enc (r"ukraine"), enc (r"UKR")), (enc (r"croatia"), enc (r"CRO")),
   (enc (r"estonia"), enc (r"EST")), (enc (r"lithuania"), enc (r"LTU")),
   (enc (r"romania"), enc (r"ROU")), (enc (r"kazakhstan"), enc (r"KAZ")),
   (enc (r"brazil"), enc (r"BRA")), (enc (r"denmark"), enc (r"DEN")),
   (enc (r"monaco"), enc (r"MON")), (enc (r"andorra"), enc (r"AND")),
   (enc (r"liechtenstein"), enc (r"LIE"))]

/-- Comparison used to order country names by descending length.  The
Python call sorted with a key of len and reverse set keeps the relative
order of names of equal length (stable sort), which `List.insertionSort`
also does. -/
def lenDescRel (a b : Txt) : Prop := b.length ≤ a.length

instance : DecidableRel lenDescRel := fun _ _ => Nat.decLe _ _

/-- COUNTRY_NAMES_BY_LENGTH of src/medal_events.py. -/
def COUNTRY_NAMES_BY_LENGTH : List Txt :=
  List.insertionSort lenDescRel (COUNTRY_TO_NOC.map Prod.fst)

/-- Dictionary lookup of the 3-letter code of a country name.  The names
fed to it always come from the dictionary itself, so the default never
fires. -/
def lookupNOC (name : Txt) : Txt :=
  ((COUNTRY_TO_NOC.find? (fun p => p.1 == name)).map Prod.snd).getD []

/-- TABLE_TO_SPORT of src/medal_events.py, mapping positional table
indices of the scraped page to a sport name and a gender prefix. -/
def TABLE_TO_SPORT : List (Nat × (Txt × Txt)) :=
  [(2, (enc (r"Alpine skiing"), enc (r"Men") ++ (39 :: enc (r"s")))),
   (3, (enc (r"Alpine skiing"), enc (r"Women") ++ (39 :: enc (r"s")))),
   (4, (enc (r"Biathlon"), enc (r"Men") ++ (39 :: enc (r"s")))),
   (5, (enc (r"Biathlon"), enc (r"Women") ++ (39 :: enc (r"s")))),
   (6, (enc (r"Biathlon"), enc (r"Mixed"))),
   (7, (enc (r"Bobsleigh"), [])),
   (8, (enc (r"Cross-country skiing"), enc (r"Men") ++ (39 :: enc (r"s")))),
   (9, (enc (r"Cross-country skiing"), enc (r"Women") ++ (39 :: enc (r"s")))),
   (10, (enc (r"Curling"), [])),
   (11, (enc (r"Figure skating"), [])),
   (12, (enc (r"Freestyle skiing"), enc (r"Men") ++ (39 :: enc (r"s")))),
   (13, (enc (r"Freestyle skiing"), enc (r"Women") ++ (39 :: enc (r"s")))),
   (14, (enc (r"Freestyle skiing"), enc (r"Mixed"))),
   (15, (enc (r"Ice hockey"), [])),
   (16, (enc (r"Luge"), [])),
   (17, (enc (r"Nordic combined"), [])),
   (18, (enc (r"Short track speed skating"), enc (r"Men") ++ (39 :: enc (r"s")))),
   (19, (enc (r"Short track speed skating"), enc (r"Women") ++ (39 :: enc (r"s")))),
   (20, (enc (r"Short track speed skating"), enc (r"Mixed"))),
   (21, (enc (r"Skeleton"), [])),
   (22, (enc (r"Ski jumping"), enc (r"Men") ++ (39 :: enc (r"s")))),
   (23, (enc (r"Ski jumping"), enc (r"Women") ++ (39 :: enc (r"s")))),
   (24, (enc (r"Ski jumping"), enc (r"Mixed"))),
   (25, (enc (r"Snowboarding"), enc (r"Men") ++ (39 :: enc (r"s")))),
   (26, (enc (r"Snowboarding"), enc (r"Men") ++ (39 :: enc (r"s")))),
   (27, (enc (r"Snowboarding"), enc (r"Women") ++ (39 :: enc (r"s")))),
   (28, (enc (r"Snowboarding"), enc (r"Mixed"))),
   (29, (enc (r"Speed skating"), enc (r"Men") ++ (39 :: enc (r"s")))),
   (30, (enc (r"Speed skating"), enc (r"Women") ++ (39 :: enc (r"s"))))]

/-- MEDAL_WINNERS_URL of src/medal_events.py. -/
def MEDAL_WINNERS_URL : Txt :=
  enc (r"https://en.wikipedia.org/wiki/List_of_2026_Winter_Olympics_medal_winners")

/-- Model of clean_event_name: remove the literal substrings - a space
followed by the word details, then the bare word details - then strip
and collapse whitespace runs. -/
def clean_event_name (event_raw : Txt) : Txt :=
  collapseWs (stripT (replaceDrop (enc (r"details")) (replaceDrop (enc (r" details")) event_raw)))

/-- Cleaning applied to a medal cell before country resolution: footnote
markers removed, whitespace runs collapsed, ends stripped. -/
def cleanedCell (cell_text : Txt) : Txt := stripT (collapseWs (stripFootnotes cell_text))

/-- Athlete text recovered from the part of the cleaned cell before the
matched country name: separator characters stripped at both ends, then
whitespace collapsed and stripped again, as in the source. -/
def athleteCut (cleaned : Txt) (cut : Nat) : Txt :=
  stripT (collapseWs (stripSeps (cleaned.take cut)))

/-- First loop of extract_athlete_and_country: walk the names in
descending length order and return on the first name that is a suffix of
the lower-cased cell. -/
def suffixScan : List Txt → Txt → Txt → Option (Txt × Txt)
  | [], _, _ => none
  | n :: ns, cellLower, cleaned =>
    if n.isSuffixOf cellLower then
      some (athleteCut cleaned (cleaned.length - n.length), lookupNOC n)
    else suffixScan ns cellLower cleaned

/-- Second loop of extract_athlete_and_country: walk the names in
descending length order and return on the first name that occurs as a
whole word anywhere in the lower-cased cell, using the start of its last
occurrence. -/
def wordScan : List Txt → Txt → Txt → Option (Txt × Txt)
  | [], _, _ => none
  | n :: ns, cellLower, cleaned =>
    match finditerLast cellLower n with
    | some i => some (athleteCut cleaned i, lookupNOC n)
    | none => wordScan ns cellLower cleaned

/-- Model of extract_athlete_and_country of src/medal_events.py. -/
def extract_athlete_and_country (cell_text : Txt) : Option Txt × Option Txt :=
  if cell_text = [] ∨ cell_text = enc (r"nan") ∨ cell_text.length < 3 then (none, none)
  else
    let cleaned := cleanedCell cell_text
    let cellLower := toLowerT cleaned
    match suffixScan COUNTRY_NAMES_BY_LENGTH cellLower cleaned with
    | some pr => (some pr.1, some pr.2)
    | none =>
      match wordScan COUNTRY_NAMES_BY_LENGTH cellLower cleaned with
      | some pr => (some pr.1, some pr.2)
      | none => (none, none)

/-- One parsed table row: an association list from column name to cell
text, modelling a pandas row indexed by the column labels. -/
abbrev TableRow := List (Txt × Txt)

/-- One parsed HTML table: column names plus rows, as produced by the
external table parser.  Missing cells are modelled by absent keys. -/
structure Table where
  cols : List Txt
  rows : List TableRow
deriving DecidableEq

/-- Dictionary-style cell access with the empty string as default,
modelling the get method on a pandas row. -/
def rowGet (row : TableRow) (name : Txt) : Txt :=
  ((row.find? (fun p => p.1 == name)).map Prod.snd).getD []

/-- One extracted medal row, mirroring the row_data dictionary built by
fetch_medal_winner_rows. -/
structure RowData where
  sport : Txt
  gender : Txt
  event : Txt
  full_event : Txt
  athlete : Txt
  medal : Txt
  noc : Txt
  url : Txt
deriving DecidableEq

/-- Composite key tuple used for deduplication during extraction. -/
structure RowKey where
  sport : Txt
  gender : Txt
  event : Txt
  medal : Txt
  noc : Txt
  athlete : Txt
deriving DecidableEq

/-- Deduplication key of fetch_medal_winner_rows: lower-cased sport,
gender, event and athlete, plus the medal and the country code. -/
def dedupeKey (x : RowData) : RowKey :=
  { sport := toLowerT x.sport, gender := toLowerT x.gender, event := toLowerT x.event,
    medal := x.medal, noc := x.noc, athlete := toLowerT x.athlete }

/-- Medal column names paired with the lower-case medal labels stored in
the extracted rows. -/
def medalCols : List (Txt × Txt) :=
  [(enc (r"Gold"), enc (r"gold")), (enc (r"Silver"), enc (r"silver")),
   (enc (r"Bronze"), enc (r"bronze"))]

/-- Candidate records of one table row, before deduplication: the event
cell is read and cleaned with the same guards as the source, then each
of the three medal cells is split into athlete and country, a record
being produced only when a country code is resolved. -/
def rowRecords (sport gender : Txt) (row : TableRow) : List RowData :=
  let event_raw := rowGet row (enc (r"Event"))
  if event_raw = [] ∨ event_raw = enc (r"nan") then []
  else
    let event_name := clean_event_name event_raw
    if event_name = [] ∨ toLowerT event_name = enc (r"event") then []
    else
      let full_event :=
        if gender = [] then sport ++ (58 :: 32 :: event_name)
        else gender ++ (32 :: (sport ++ (58 :: 32 :: event_name)))
      medalCols.filterMap (fun mc =>
        let cell := rowGet row mc.1
        if cell = [] ∨ cell = enc (r"nan") ∨ cell = enc (r"NaN") then none
        else
          match extract_athlete_and_country cell with
          | (athlete, some noc) =>
            if noc = [] then none
            else some { sport := sport, gender := gender, event := event_name,
                        full_event := full_event, athlete := athlete.getD [],
                        medal := mc.2, noc := noc, url := MEDAL_WINNERS_URL }
          | (_, none) => none)

/-- Candidate records of one table: nothing unless the lower-cased
headers contain both an event and a gold column and the positional index
has an entry in TABLE_TO_SPORT. -/
def tableRecords (idx : Nat) (t : Table) : List RowData :=
  if (enc (r"event")) ∈ t.cols.map toLowerT ∧ (enc (r"gold")) ∈ t.cols.map toLowerT then
    match TABLE_TO_SPORT.find? (fun p => p.1 == idx) with
    | some p => t.rows.flatMap (rowRecords p.2.1 p.2.2)
    | none => []
  else []

/-- Deduplication by key with an explicit set of already seen keys
(modelled as a list), keeping the first occurrence. -/
def dedupeBy {α : Type} {κ : Type} [DecidableEq κ] (key : α → κ) : List α → List κ → List α
  | [], _ => []
  | x :: xs, seen =>
    if key x ∈ seen then dedupeBy key xs seen
    else x :: dedupeBy key xs (key x :: seen)

/-- Model of fetch_medal_winner_rows of src/medal_events.py, with the
already-fetched tables as input (the network fetch is outside the
core). -/
def fetch_medal_winner_rows (tables : List Table) : List RowData :=
  dedupeBy dedupeKey ((tables.enum.map (fun p => tableRecords p.1 p.2)).flatten) []

/-- One per-country event entry, mirroring the event_data dictionary of
fetch_medal_events. -/
structure EventData where
  event : Txt
  athlete : Txt
  medal : Txt
  url : Txt
deriving DecidableEq

/-- Projection from an extracted row to the per-country event entry. -/
def toEventData (x : RowData) : EventData :=
  { event := x.full_event, athlete := x.athlete, medal := x.medal, url := x.url }

/-- Composite key tuple used for per-country deduplication. -/
structure EventKey where
  event : Txt
  medal : Txt
  athlete : Txt
deriving DecidableEq

/-- Per-country deduplication key of fetch_medal_events: lower-cased full
event label, medal, lower-cased athlete. -/
def evDedupeKey (e : EventData) : EventKey :=
  { event := toLowerT e.event, medal := e.medal, athlete := toLowerT e.athlete }

/-- Model of fetch_medal_events of src/medal_events.py: group the rows by
country code in order of first appearance (a Python dictionary preserves
insertion order) and deduplicate inside each group. -/
def fetch_medal_events (rows : List RowData) : List (Txt × List EventData) :=
  let rows2 := rows.filter (fun x => decide (x.noc ≠ []))
  let nocs := dedupeBy (fun n => n) (rows2.map (fun x => x.noc)) []
  nocs.map (fun noc =>
    (noc, dedupeBy evDedupeKey ((rows2.filter (fun x => x.noc == noc)).map toEventData) []))

/-! ## olympic-dash.py -/

/-- Model of normalize_text of src/olympic-dash.py: strip, lower-case,
then collapse whitespace runs to single spaces. -/
def normalize_text (value : Txt) : Txt := collapseWs (toLowerT (stripT value))

/-- Character kept by canonical_text: an ASCII lower-case letter or a
digit. -/
def isCanonChar (c : Nat) : Bool := decide ((97 ≤ c ∧ c ≤ 122) ∨ (48 ≤ c ∧ c ≤ 57))

/-- Model of canonical_text of src/olympic-dash.py: normalize, then
remove every character that is not a lower-case letter or digit. -/
def canonical_text (value : Txt) : Txt := (normalize_text value).filter isCanonChar

/-- One entry of the daily double configuration.  Keys absent from a
Python dictionary are modelled by the empty string or the empty list,
matching the defaults used by the get calls of the source. -/
structure DDConfig where
  name : Txt
  sport : Txt
  gender : Txt
  event_keywords : List Txt
  event_exclude_keywords : List Txt
  event_exact : List Txt
deriving DecidableEq

/-- Fourth entry of DAILY_DOUBLE_EVENTS of src/olympic-dash.py. -/
def ddMensAlpineSlalom : DDConfig :=
  { name := enc (r"Men") ++ (39 :: enc (r"s Alpine Slalom")),
    sport := enc (r"Alpine skiing"),
    gender := enc (r"Men") ++ (39 :: enc (r"s")),
    event_keywords := [enc (r"slalom")],
    event_exclude_keywords := [],
    event_exact := [enc (r"slalom")] }

/-- DAILY_DOUBLE_EVENTS of src/olympic-dash.py. -/
def DAILY_DOUBLE_EVENTS : List DDConfig :=
  [{ name := enc (r"Women") ++ (39 :: enc (r"s Ski Cross")),
     sport := enc (r"Freestyle skiing"),
     gender := enc (r"Women") ++ (39 :: enc (r"s")),
     event_keywords := [enc (r"ski cross")],
     event_exclude_keywords := [],
     event_exact := [] },
   { name := enc (r"Women") ++ (39 :: enc (r"s Luge Singles")),
     sport := enc (r"Luge"),
     gender := [],
     event_keywords := [enc (r"women") ++ (39 :: enc (r"s singles"))],
     event_exclude_keywords := [],
     event_exact := [] },
   { name := enc (r"Men") ++ (39 :: enc (r"s 1500m Short Track Speed Skating")),
     sport := enc (r"Short track speed skating"),
     gender := enc (r"Men") ++ (39 :: enc (r"s")),
     event_keywords := [enc (r"1500")],
     event_exclude_keywords := [],
     event_exact := [] },
   ddMensAlpineSlalom]

/-- Model of matches_daily_double of src/olympic-dash.py. -/
def matches_daily_double (winner_row : RowData) (event_config : DDConfig) : Bool :=
  let sport := canonical_text winner_row.sport
  let gender := canonical_text winner_row.gender
  let event_name := canonical_text winner_row.event
  let required_sport := canonical_text event_config.sport
  let required_gender := canonical_text event_config.gender
  let required_keywords0 := event_config.event_keywords.map canonical_text
  let required_exclude0 := event_config.event_exclude_keywords.map canonical_text
  let required_exact0 := event_config.event_exact.map canonical_text
  if required_sport ≠ [] ∧ sport ≠ required_sport then false
  else if required_gender ≠ [] ∧ gender ≠ required_gender then false
  else
    let required_keywords := required_keywords0.filter (fun k => decide (k ≠ []))
    let required_exclude := required_exclude0.filter (fun k => decide (k ≠ []))
    let required_exact := required_exact0.filter (fun k => decide (k ≠ []))
    if required_exact ≠ [] ∧ event_name ∉ required_exact then false
    else if required_exclude.any (fun k => decide (k <:+: event_name)) then false
    else required_keywords.all (fun k => decide (k <:+: event_name))

/-- Statement of the matcher contract in the words of the specification,
to be compared with the source-derived `matches_daily_double`: the
canonical sport and gender must agree with the required ones when those
are specified, the canonical event name must belong to a non-empty
exact-match set, must contain no excluded keyword and must contain every
required keyword. -/
def matchesDailyDoubleSpec (winner_row : RowData) (event_config : DDConfig) : Prop :=
  (canonical_text event_config.sport ≠ [] →
    canonical_text winner_row.sport = canonical_text event_config.sport) ∧
  (canonical_text event_config.gender ≠ [] →
    canonical_text winner_row.gender = canonical_text event_config.gender) ∧
  ((event_config.event_exact.map canonical_text).filter (fun k => decide (k ≠ [])) ≠ [] →
    canonical_text winner_row.event ∈
      (event_config.event_exact.map canonical_text).filter (fun k => decide (k ≠ []))) ∧
  (∀ k ∈ (event_config.event_exclude_keywords.map canonical_text).filter (fun k => decide (k ≠ [])),
    ¬ (k <:+: canonical_text winner_row.event)) ∧
  (∀ k ∈ (event_config.event_keywords.map canonical_text).filter (fun k => decide (k ≠ [])),
    k <:+: canonical_text winner_row.event)

/-- Model of clean_noc of src/olympic-dash.py: strip then upper-case. -/
def clean_noc (value : Txt) : Txt := toUpperT (stripT value)

/-- One row of the medals table, with the numeric columns already
numeric (the to_numeric conversion with coercion and zero fill of the
source is the identity on integer input). -/
structure MedalsRow where
  noc : Txt
  country : Txt
  gold : Int
  silver : Int
  bronze : Int
  total : Int
deriving DecidableEq

/-- Lexicographic strict comparison of texts by code point, modelling
string comparison in Python. -/
def textLt : Txt → Txt → Bool
  | [], [] => false
  | [], _ :: _ => true
  | _ :: _, [] => false
  | a :: as, b :: bs => if a < b then true else if b < a then false else textLt as bs

/-- Non-strict text comparison derived from `textLt`. -/
def textLe (a b : Txt) : Bool := !(textLt b a)

/-- Ordering used by normalize_medals_df: total, gold, silver and bronze
descending, then country ascending. -/
def medalsLe (a b : MedalsRow) : Bool :=
  if a.total = b.total then
    if a.gold = b.gold then
      if a.silver = b.silver then
        if a.bronze = b.bronze then textLe a.country b.country
        else decide (b.bronze ≤ a.bronze)
      else decide (b.silver ≤ a.silver)
    else decide (b.gold ≤ a.gold)
  else decide (b.total ≤ a.total)

/-- Index-aware comparison making any total comparison into a total
order on enumerated elements, the original position breaking ties.  A
sort by this relation computes exactly a stable sort by the underlying
comparison, which is how the multi-column sort_values of pandas behaves
(it ignores the kind option and uses a stable lexicographic argsort). -/
def idxLe {α : Type} (le : α → α → Bool) (a b : Nat × α) : Bool :=
  if le a.2 b.2 then (if le b.2 a.2 then decide (a.1 ≤ b.1) else true) else false

/-- Propositional form of `idxLe` feeding `List.insertionSort`. -/
def stableRel {α : Type} (le : α → α → Bool) (a b : Nat × α) : Prop := idxLe le a b = true

instance instDecStableRel {α : Type} (le : α → α → Bool) : DecidableRel (stableRel le) :=
  fun a b => inferInstanceAs (Decidable (idxLe le a b = true))

/-- Enumerated form of the stable sort, kept as a separate definition so
that statements about tie-breaking by original position can refer to the
indices. -/
def stableSortEnum {α : Type} (le : α → α → Bool) (l : List α) : List (Nat × α) :=
  List.insertionSort (stableRel le) l.enum

/-- Stable sort by a boolean comparison, modelling DataFrame.sort_values
on multiple columns. -/
def stableSortBy {α : Type} (le : α → α → Bool) (l : List α) : List α :=
  (stableSortEnum le l).map Prod.snd

/-- Model of normalize_medals_df of src/olympic-dash.py: clean the code
and country columns, drop rows with an empty code, sort, and keep the
first row of each code. -/
def normalize_medals_df (rows : List MedalsRow) : List MedalsRow :=
  let cleaned := rows.map (fun x =>
    { x with noc := clean_noc x.noc, country := stripT x.country })
  let filtered := cleaned.filter (fun x => decide (x.noc ≠ []))
  dedupeBy (fun x => x.noc) (stableSortBy medalsLe filtered) []

/-- One roster row of friends.csv after load_friends: the friend name,
two country codes and two display country names, all plain strings
(load_friends fills missing values with the empty string). -/
structure FriendRow where
  friend : Txt
  noc_1 : Txt
  noc_2 : Txt
  country_1 : Txt
  country_2 : Txt
deriving DecidableEq

/-- One row of the aggregated daily double medal counts (double_df of
the source, already grouped by code with summed counts). -/
structure DDRow where
  noc : Txt
  gold : Int
  silver : Int
  bronze : Int
deriving DecidableEq

/-- One scored roster entry: the merged, filled and scored row of
build_friend_scores.  Points are rational numbers; the Python floats
involved are integers possibly multiplied once by one half, which the
rationals represent exactly. -/
structure ScoredRow where
  friend : Txt
  noc_1 : Txt
  noc_2 : Txt
  country_1 : Txt
  country_2 : Txt
  gold_1 : Int
  silver_1 : Int
  bronze_1 : Int
  total_1 : Int
  gold_2 : Int
  silver_2 : Int
  bronze_2 : Int
  total_2 : Int
  points_1 : ℚ
  points_2 : ℚ
  daily_double : ℚ
  points_total : ℚ
  total_medals : Int
deriving DecidableEq

/-- Gold weight of SCORING_WEIGHTS. -/
def wGold : ℚ := 3

/-- Silver weight of SCORING_WEIGHTS. -/
def wSilver : ℚ := 2

/-- Bronze weight of SCORING_WEIGHTS. -/
def wBronze : ℚ := 1

/-- Model of get_dd_points of src/olympic-dash.py: weighted points of the
daily double medals of one code, halved for the penalty code NOR. -/
def get_dd_points (double_df : List DDRow) (noc : Txt) : ℚ :=
  match double_df.find? (fun x => x.noc == noc) with
  | some x =>
    let points := (x.gold : ℚ) * wGold + (x.silver : ℚ) * wSilver + (x.bronze : ℚ) * wBronze
    if noc = enc (r"NOR") then points * (1 / 2) else points
  | none => 0

/-- Weighted daily double points of one code before the penalty rule,
used to state that the penalty halves the bonus exactly once. -/
def ddRawPoints (double_df : List DDRow) (noc : Txt) : ℚ :=
  match double_df.find? (fun x => x.noc == noc) with
  | some x => (x.gold : ℚ) * wGold + (x.silver : ℚ) * wSilver + (x.bronze : ℚ) * wBronze
  | none => 0

/-- Scoring of a single roster entry against the normalized medals table
and the daily double counts: left merge with zero fill, weighted points
per side, the one-time halving of the points of the penalty code NOR on
either side and in the bonus, and the totals. -/
def scoreRow (medals : List MedalsRow) (double_df : List DDRow) (f : FriendRow) : ScoredRow :=
  let m1 := medals.find? (fun x => x.noc == f.noc_1)
  let m2 := medals.find? (fun x => x.noc == f.noc_2)
  let g1 := (m1.map MedalsRow.gold).getD 0
  let s1 := (m1.map MedalsRow.silver).getD 0
  let b1 := (m1.map MedalsRow.bronze).getD 0
  let t1 := (m1.map MedalsRow.total).getD 0
  let g2 := (m2.map MedalsRow.gold).getD 0
  let s2 := (m2.map MedalsRow.silver).getD 0
  let b2 := (m2.map MedalsRow.bronze).getD 0
  let t2 := (m2.map MedalsRow.total).getD 0
  let p1base : ℚ := (g1 : ℚ) * wGold + (s1 : ℚ) * wSilver + (b1 : ℚ) * wBronze
  let p2base : ℚ := (g2 : ℚ) * wGold + (s2 : ℚ) * wSilver + (b2 : ℚ) * wBronze
  let p1 := if f.noc_1 = enc (r"NOR") then p1base * (1 / 2) else p1base
  let p2 := if f.noc_2 = enc (r"NOR") then p2base * (1 / 2) else p2base
  let dd := if double_df.isEmpty then 0
    else get_dd_points double_df f.noc_1 + get_dd_points double_df f.noc_2
  { friend := f.friend, noc_1 := f.noc_1, noc_2 := f.noc_2,
    country_1 := f.country_1, country_2 := f.country_2,
    gold_1 := g1, silver_1 := s1, bronze_1 := b1, total_1 := t1,
    gold_2 := g2, silver_2 := s2, bronze_2 := b2, total_2 := t2,
    points_1 := p1, points_2 := p2, daily_double := dd,
    points_total := p1 + p2 + dd, total_medals := t1 + t2 }

/-- Scored rows in roster order, before the final ranking sort. -/
def scoreRows (friends : List FriendRow) (medals : List MedalsRow)
    (double_df : List DDRow) : List ScoredRow :=
  let fs := friends.map (fun f =>
    { f with noc_1 := clean_noc f.noc_1, noc_2 := clean_noc f.noc_2 })
  fs.map (scoreRow (normalize_medals_df medals) double_df)

/-- Final ranking order of build_friend_scores: total points descending,
then combined medal count descending. -/
def scoreKeyLe (a b : ScoredRow) : Bool :=
  if a.points_total = b.points_total then decide (b.total_medals ≤ a.total_medals)
  else decide (b.points_total ≤ a.points_total)

/-- Model of build_friend_scores of src/olympic-dash.py with the friends
roster, the raw medals table and the grouped daily double counts as
input. -/
def build_friend_scores (friends : List FriendRow) (medals : List MedalsRow)
    (double_df : List DDRow) : List ScoredRow :=
  stableSortBy scoreKeyLe (scoreRows friends medals double_df)

/-! ## Concrete inputs used by the claims -/

/-- Filler table with no medal headers, skipped by the extractor. -/
def blankTable : Table := { cols := [], rows := [] }

/-- Correctly structured medal table with one gold row resolving to
Switzerland. -/
def goodSwissTable : Table :=
  { cols := [enc (r"Event"), enc (r"Gold"), enc (r"Silver"), enc (r"Bronze")],
    rows := [[(enc (r"Event"), enc (r"Downhill")),
              (enc (r"Gold"), enc (r"Franjo von Allmen  Switzerland")),
              (enc (r"Silver"), enc (r"nan")),
              (enc (r"Bronze"), enc (r"nan"))]] }

/-- Malformed table missing a gold header. -/
def malformedTable : Table :=
  { cols := [enc (r"Event"), enc (r"Winner")],
    rows := [[(enc (r"Event"), enc (r"Downhill")),
              (enc (r"Winner"), enc (r"Switzerland"))]] }

/-- Record extracted from `goodSwissTable` when it sits at table index 2
(mapped to the Alpine skiing table with the Men gender prefix). -/
def swissRecord : RowData :=
  { sport := enc (r"Alpine skiing"), gender := enc (r"Men") ++ (39 :: enc (r"s")),
    event := enc (r"Downhill"),
    full_event := enc (r"Men") ++ (39 :: enc (r"s Alpine skiing: Downhill")),
    athlete := enc (r"Franjo von Allmen"), medal := enc (r"gold"),
    noc := enc (r"SUI"), url := MEDAL_WINNERS_URL }

/-- Table feeding the same medal row twice: the second row differs from
the first only in whitespace, letter case and a bracketed footnote
marker, so both rows normalize to the same deduplication key. -/
def dupRowTable : Table :=
  { cols := [enc (r"Event"), enc (r"Gold")],
    rows := [[(enc (r"Event"), enc (r"Slalom")),
              (enc (r"Gold"), enc (r"Franjo von Allmen  Switzerland"))],
             [(enc (r"Event"), enc (r"  Slalom ")),
              (enc (r"Gold"), enc (r"FRANJO VON ALLMEN[a]  SWITZERLAND"))]] }

/-- Record kept from the first row of `dupRowTable` at table index 2. -/
def dupKeptRecord : RowData :=
  { sport := enc (r"Alpine skiing"), gender := enc (r"Men") ++ (39 :: enc (r"s")),
    event := enc (r"Slalom"),
    full_event := enc (r"Men") ++ (39 :: enc (r"s Alpine skiing: Slalom")),
    athlete := enc (r"Franjo von Allmen"), medal := enc (r"gold"),
    noc := enc (r"SUI"), url := MEDAL_WINNERS_URL }

/-- Well-formed medal table whose event name carries an explicit gender
keyword, placed at an index with no TABLE_TO_SPORT entry. -/
def unmappedTable : Table :=
  { cols := [enc (r"Event"), enc (r"Gold")],
    rows := [[(enc (r"Event"), enc (r"Womens giant slalom")),
              (enc (r"Gold"), enc (r"Sofia Goggia Italy"))]] }

/-- Table whose gold cell is exactly a country name, producing a team
credit with an empty athlete. -/
def teamCellTable : Table :=
  { cols := [enc (r"Event"), enc (r"Gold")],
    rows := [[(enc (r"Event"), enc (r"Team combined")),
              (enc (r"Gold"), enc (r"Switzerland"))]] }

/-- Team-credit record extracted from `teamCellTable` at table index 2. -/
def teamCreditRecord : RowData :=
  { sport := enc (r"Alpine skiing"), gender := enc (r"Men") ++ (39 :: enc (r"s")),
    event := enc (r"Team combined"),
    full_event := enc (r"Men") ++ (39 :: enc (r"s Alpine skiing: Team combined")),
    athlete := [], medal := enc (r"gold"),
    noc := enc (r"SUI"), url := MEDAL_WINNERS_URL }

/-- Roster with a single entry picking Switzerland and no second
country. -/
def rosterSwiss : List FriendRow :=
  [{ friend := enc (r"Alice"), noc_1 := enc (r"SUI"), noc_2 := [],
     country_1 := enc (r"Switzerland"), country_2 := [] }]

/-- Medal totals of two gold, one silver, zero bronze for Switzerland. -/
def medalsSwiss : List MedalsRow :=
  [{ noc := enc (r"SUI"), country := enc (r"Switzerland"),
     gold := 2, silver := 1, bronze := 0, total := 3 }]

/-- Roster with a single entry picking the penalty code NOR. -/
def rosterNor : List FriendRow :=
  [{ friend := enc (r"Bob"), noc_1 := enc (r"NOR"), noc_2 := [],
     country_1 := enc (r"Norway"), country_2 := [] }]

/-- Medal totals of two gold, one silver, zero bronze for Norway. -/
def medalsNor : List MedalsRow :=
  [{ noc := enc (r"NOR"), country := enc (r"Norway"),
     gold := 2, silver := 1, bronze := 0, total := 3 }]

/-- Record with sport Alpine skiing, the Men gender prefix and event
Slalom, used by the daily double classification claim. -/
def slalomRecord : RowData :=
  { sport := enc (r"Alpine skiing"), gender := enc (r"Men") ++ (39 :: enc (r"s")),
    event := enc (r"Slalom"), full_event := [], athlete := [],
    medal := enc (r"gold"), noc := enc (r"SUI"), url := [] }

/-- Roster row of rosterSwiss after the code-cleaning of the codes. -/
def aliceClean : FriendRow :=
  { friend := enc (r"Alice"), noc_1 := enc (r"SUI"), noc_2 := [],
    country_1 := enc (r"Switzerland"), country_2 := [] }

/-- Roster row of rosterNor after the code-cleaning of the codes. -/
def bobClean : FriendRow :=
  { friend := enc (r"Bob"), noc_1 := enc (r"NOR"), noc_2 := [],
    country_1 := enc (r"Norway"), country_2 := [] }

/-- Descriptor requiring the exact canonical event name giant slalom. -/
def ddMensGiantSlalom : DDConfig :=
  { name := enc (r"Men") ++ (39 :: enc (r"s Giant Slalom")),
    sport := enc (r"Alpine skiing"),
    gender := enc (r"Men") ++ (39 :: enc (r"s")),
    event_keywords := [enc (r"giant slalom")],
    event_exclude_keywords := [],
    event_exact := [enc (r"giant slalom")] }

/-! ## Generic lemmas about deduplication -/

theorem mem_of_mem_dedupeBy {α κ : Type} [DecidableEq κ] (key : α → κ) :
    ∀ (l : List α) (seen : List κ) (x : α), x ∈ dedupeBy key l seen → x ∈ l := by
  intro l
  induction l with
  | nil => intro seen x h; simp [dedupeBy] at h
  | cons a as ih =>
    intro seen x h
    by_cases hk : key a ∈ seen
    · rw [dedupeBy, if_pos hk] at h
      exact List.mem_cons_of_mem a (ih _ x h)
    · rw [dedupeBy, if_neg hk] at h
      rcases List.mem_cons.mp h with h1 | h2
      · exact h1 ▸ List.mem_cons_self a as
      · exact List.mem_cons_of_mem a (ih _ x h2)

theorem key_not_seen_of_mem_dedupeBy {α κ : Type} [DecidableEq κ] (key : α → κ) :
    ∀ (l : List α) (seen : List κ) (x : α), x ∈ dedupeBy key l seen → key x ∉ seen := by
  intro l
  induction l with
  | nil => intro seen x h; simp [dedupeBy] at h
  | cons a as ih =>
    intro seen x h
    by_cases hk : key a ∈ seen
    · rw [dedupeBy, if_pos hk] at h
      exact ih _ x h
    · rw [dedupeBy, if_neg hk] at h
      rcases List.mem_cons.mp h with h1 | h2
      · exact h1 ▸ hk
      · intro hmem
        exact ih _ x h2 (List.mem_cons_of_mem _ hmem)

theorem dedupeBy_pairwise {α κ : Type} [DecidableEq κ] (key : α → κ) :
    ∀ (l : List α) (seen : List κ),
      (dedupeBy key l seen).Pairwise (fun a b => key a ≠ key b) := by
  intro l
  induction l with
  | nil => intro seen; simp [dedupeBy]
  | cons a as ih =>
    intro seen
    by_cases hk : key a ∈ seen
    · rw [dedupeBy, if_pos hk]; exact ih seen
    · rw [dedupeBy, if_neg hk]
      refine List.Pairwise.cons ?_ (ih _)
      intro b hb he
      exact key_not_seen_of_mem_dedupeBy key as _ b hb (he ▸ List.mem_cons_self _ _)

/-! ## Lemmas about the text primitives -/

theorem lowerChar_idem (c : Nat) : lowerChar (lowerChar c) = lowerChar c := by
  simp only [lowerChar]
  split_ifs <;> omega

theorem isWsChar_lowerChar (c : Nat) : isWsChar (lowerChar c) = isWsChar c := by
  simp only [lowerChar, isWsChar]
  split_ifs with h
  · simp only [decide_eq_decide]
    omega
  · rfl

theorem toLowerT_idem (t : Txt) : toLowerT (toLowerT t) = toLowerT t := by
  simp only [toLowerT, List.map_map]
  exact List.map_congr_left (fun c _ => lowerChar_idem c)

theorem collapseWsAux_nil (b : Bool) : collapseWsAux b [] = [] := rfl

theorem collapseWsAux_cons_not_ws (b : Bool) (c : Nat) (cs : Txt) (h : isWsChar c = false) :
    collapseWsAux b (c :: cs) = c :: collapseWsAux false cs := by
  simp [collapseWsAux, h]

theorem collapseWsAux_cons_ws_true (c : Nat) (cs : Txt) (h : isWsChar c = true) :
    collapseWsAux true (c :: cs) = collapseWsAux true cs := by
  simp [collapseWsAux, h]

theorem collapseWsAux_cons_ws_false (c : Nat) (cs : Txt) (h : isWsChar c = true) :
    collapseWsAux false (c :: cs) = 32 :: collapseWsAux true cs := by
  simp [collapseWsAux, h]

theorem collapseWsAux_idem : ∀ (t : Txt) (b : Bool),
    collapseWsAux b (collapseWsAux b t) = collapseWsAux b t := by
  intro t
  induction t with
  | nil => intro b; rfl
  | cons c cs ih =>
    intro b
    cases hws : isWsChar c with
    | false =>
      rw [collapseWsAux_cons_not_ws b c cs hws, collapseWsAux_cons_not_ws b c _ hws, ih false]
    | true =>
      cases b with
      | true =>
        rw [collapseWsAux_cons_ws_true c cs hws]
        exact ih true
      | false =>
        rw [collapseWsAux_cons_ws_false c cs hws, collapseWsAux_cons_ws_false 32 _ rfl, ih true]

theorem toLowerT_collapseWsAux : ∀ (t : Txt) (b : Bool),
    toLowerT (collapseWsAux b t) = collapseWsAux b (toLowerT t) := by
  intro t
  induction t with
  | nil => intro b; rfl
  | cons c cs ih =>
    intro b
    cases hws : isWsChar c with
    | false =>
      have hws2 : isWsChar (lowerChar c) = false := by rw [isWsChar_lowerChar, hws]
      rw [collapseWsAux_cons_not_ws b c cs hws]
      show lowerChar c :: toLowerT (collapseWsAux false cs) = collapseWsAux b (lowerChar c :: toLowerT cs)
      rw [collapseWsAux_cons_not_ws b _ _ hws2, ih false]
    | true =>
      have hws2 : isWsChar (lowerChar c) = true := by rw [isWsChar_lowerChar, hws]
      cases b with
      | true =>
        rw [collapseWsAux_cons_ws_true c cs hws]
        show toLowerT (collapseWsAux true cs) = collapseWsAux true (lowerChar c :: toLowerT cs)
        rw [collapseWsAux_cons_ws_true _ _ hws2, ih true]
      | false =>
        rw [collapseWsAux_cons_ws_false c cs hws]
        show 32 :: toLowerT (collapseWsAux true cs) = collapseWsAux false (lowerChar c :: toLowerT cs)
        rw [collapseWsAux_cons_ws_false _ _ hws2, ih true]

theorem collapseWsAux_head_of_not_ws (t : Txt) (b : Bool) (a : Nat)
    (ha : isWsChar a = false) (ht : t.head? = some a) :
    (collapseWsAux b t).head? = some a := by
  cases t with
  | nil => simp at ht
  | cons c cs =>
    simp only [List.head?_cons, Option.some.injEq] at ht
    subst ht
    rw [collapseWsAux_cons_not_ws _ _ _ ha]
    rfl

theorem collapseWsAux_getLast? : ∀ (t : Txt) (b : Bool) (c : Nat),
    t.getLast? = some c → isWsChar c = false →
    (collapseWsAux b t).getLast? = some c := by
  intro t
  induction t with
  | nil => intro b c h; simp at h
  | cons a as ih =>
    intro b c h hc
    cases as with
    | nil =>
      simp only [List.getLast?_singleton, Option.some.injEq] at h
      subst h
      rw [collapseWsAux_cons_not_ws _ _ _ hc]
      rfl
    | cons a2 as2 =>
      rw [List.getLast?_cons_cons] at h
      cases hws : isWsChar a with
      | false =>
        rw [collapseWsAux_cons_not_ws b a _ hws]
        have hrec := ih false c h hc
        cases hX : collapseWsAux false (a2 :: as2) with
        | nil => rw [hX] at hrec; simp at hrec
        | cons y ys =>
          rw [hX] at hrec
          rw [List.getLast?_cons_cons]
          exact hrec
      | true =>
        cases b with
        | true =>
          rw [collapseWsAux_cons_ws_true a _ hws]
          exact ih true c h hc
        | false =>
          rw [collapseWsAux_cons_ws_false a _ hws]
          have hrec := ih true c h hc
          cases hX : collapseWsAux true (a2 :: as2) with
          | nil => rw [hX] at hrec; simp at hrec
          | cons y ys =>
            rw [hX] at hrec
            rw [List.getLast?_cons_cons]
            exact hrec

theorem head?_dropWhile_not (p : Nat → Bool) :
    ∀ (l : Txt) (c : Nat), (l.dropWhile p).head? = some c → p c = false := by
  intro l
  induction l with
  | nil => intro c h; simp [List.dropWhile] at h
  | cons a as ih =>
    intro c h
    rw [List.dropWhile_cons] at h
    by_cases hp : p a = true
    · rw [if_pos hp] at h
      exact ih c h
    · rw [if_neg hp] at h
      simp only [List.head?_cons, Option.some.injEq] at h
      subst h
      simp only [Bool.not_eq_true] at hp
      exact hp

theorem getLast?_dropWhile (p : Nat → Bool) :
    ∀ (l : Txt) (c : Nat), l.getLast? = some c → p c = false →
    (l.dropWhile p).getLast? = some c := by
  intro l
  induction l with
  | nil => intro c h; simp at h
  | cons a as ih =>
    intro c h hc
    cases as with
    | nil =>
      simp only [List.getLast?_singleton, Option.some.injEq] at h
      subst h
      rw [List.dropWhile_cons, if_neg (by simp [hc])]
      rfl
    | cons a2 as2 =>
      rw [List.getLast?_cons_cons] at h
      rw [List.dropWhile_cons]
      split
      · exact ih c h hc
      · rw [List.getLast?_cons_cons]
        exact h

theorem dropWhile_eq_self_of_head (p : Nat → Bool) (l : Txt)
    (h : ∀ c, l.head? = some c → p c = false) : l.dropWhile p = l := by
  cases l with
  | nil => rfl
  | cons a as =>
    rw [List.dropWhile_cons, if_neg]
    simp [h a rfl]

theorem stripT_eq_self (t : Txt)
    (hhead : ∀ c, t.head? = some c → isWsChar c = false)
    (hlast : ∀ c, t.getLast? = some c → isWsChar c = false) : stripT t = t := by
  rw [stripT, dropWhile_eq_self_of_head _ _ hhead]
  rw [dropWhile_eq_self_of_head]
  · exact List.reverse_reverse t
  · intro c h
    rw [List.head?_reverse] at h
    exact hlast c h

theorem stripT_head_not_ws (t : Txt) (a : Nat) (h : (stripT t).head? = some a) :
    isWsChar a = false := by
  rw [stripT, List.head?_reverse] at h
  cases hu : (t.dropWhile isWsChar).head? with
  | none =>
    have : t.dropWhile isWsChar = [] := by
      cases hc : t.dropWhile isWsChar with
      | nil => rfl
      | cons x xs => rw [hc] at hu; simp at hu
    rw [this] at h
    simp at h
  | some a2 =>
    have ha2 : isWsChar a2 = false := head?_dropWhile_not _ _ _ hu
    have hlast : (t.dropWhile isWsChar).reverse.getLast? = some a2 := by
      rw [List.getLast?_reverse]; exact hu
    have := getLast?_dropWhile isWsChar _ _ hlast ha2
    rw [this] at h
    cases h
    exact ha2

theorem stripT_getLast_not_ws (t : Txt) (a : Nat) (h : (stripT t).getLast? = some a) :
    isWsChar a = false := by
  rw [stripT, List.getLast?_reverse] at h
  exact head?_dropWhile_not _ _ _ h

theorem getLast?_toLowerT (t : Txt) : (toLowerT t).getLast? = t.getLast?.map lowerChar := by
  rw [← List.head?_reverse, toLowerT, ← List.map_reverse, List.head?_map, List.head?_reverse]

theorem stripT_normalize_text (t : Txt) :
    stripT (normalize_text t) = normalize_text t := by
  apply stripT_eq_self
  · intro c h
    rw [normalize_text] at h
    cases hu : toLowerT (stripT t) with
    | nil =>
      rw [hu] at h
      exact Option.noConfusion h
    | cons a us =>
      have ha : isWsChar a = false := by
        have hh : (toLowerT (stripT t)).head? = some a := by rw [hu]; rfl
        rw [toLowerT, List.head?_map] at hh
        cases hs : (stripT t).head? with
        | none => rw [hs] at hh; exact Option.noConfusion hh
        | some a0 =>
          rw [hs] at hh
          simp only [Option.map_some', Option.some.injEq] at hh
          rw [← hh, isWsChar_lowerChar]
          exact stripT_head_not_ws t a0 hs
      rw [collapseWs, hu] at h
      rw [collapseWsAux_head_of_not_ws (a :: us) false a ha rfl] at h
      cases h
      exact ha
  · intro c h
    rw [normalize_text, collapseWs] at h
    cases hu : (toLowerT (stripT t)).getLast? with
    | none =>
      rw [List.getLast?_eq_none_iff] at hu
      rw [hu] at h
      exact Option.noConfusion h
    | some a =>
      have ha : isWsChar a = false := by
        rw [getLast?_toLowerT] at hu
        cases hs : (stripT t).getLast? with
        | none => rw [hs] at hu; exact Option.noConfusion hu
        | some a0 =>
          rw [hs] at hu
          simp only [Option.map_some', Option.some.injEq] at hu
          rw [← hu, isWsChar_lowerChar]
          exact stripT_getLast_not_ws t a0 hs
      rw [collapseWsAux_getLast? _ false a hu ha] at h
      cases h
      exact ha

theorem toLowerT_normalize_text (t : Txt) :
    toLowerT (normalize_text t) = normalize_text t := by
  rw [normalize_text, collapseWs, toLowerT_collapseWsAux, toLowerT_idem]

theorem collapseWs_normalize_text (t : Txt) :
    collapseWs (normalize_text t) = normalize_text t := by
  rw [normalize_text, collapseWs, collapseWs, collapseWsAux_idem]

theorem normalize_text_idem (t : Txt) :
    normalize_text (normalize_text t) = normalize_text t := by
  conv_lhs => rw [normalize_text]
  rw [stripT_normalize_text, toLowerT_normalize_text]
  exact collapseWs_normalize_text t

theorem isCanonChar_not_ws (c : Nat) (h : isCanonChar c = true) : isWsChar c = false := by
  simp only [isCanonChar, decide_eq_true_eq] at h
  simp only [isWsChar, decide_eq_false_iff_not]
  omega

theorem isCanonChar_lower_fixed (c : Nat) (h : isCanonChar c = true) : lowerChar c = c := by
  simp only [isCanonChar, decide_eq_true_eq] at h
  simp only [lowerChar]
  rw [if_neg]
  omega

theorem collapseWsAux_of_no_ws : ∀ (l : Txt), (∀ c ∈ l, isWsChar c = false) →
    ∀ b, collapseWsAux b l = l := by
  intro l
  induction l with
  | nil => intro _ b; rfl
  | cons a as ih =>
    intro h b
    have ha : isWsChar a = false := h a (List.mem_cons_self a as)
    simp only [collapseWsAux, ha, Bool.false_eq_true, if_false]
    rw [ih (fun c hc => h c (List.mem_cons_of_mem a hc)) false]

theorem toLowerT_of_fixed (l : Txt) (h : ∀ c ∈ l, lowerChar c = c) : toLowerT l = l := by
  rw [toLowerT, List.map_congr_left h, List.map_id']

theorem canonical_text_idem (t : Txt) :
    canonical_text (canonical_text t) = canonical_text t := by
  have hmem : ∀ c ∈ canonical_text t, isCanonChar c = true := by
    intro c hc
    exact List.of_mem_filter hc
  have hnws : ∀ c ∈ canonical_text t, isWsChar c = false :=
    fun c hc => isCanonChar_not_ws c (hmem c hc)
  have h1 : stripT (canonical_text t) = canonical_text t := by
    apply stripT_eq_self
    · intro c h; exact hnws c (List.mem_of_mem_head? h)
    · intro c h; exact hnws c (List.mem_of_getLast?_eq_some h)
  have h2 : toLowerT (canonical_text t) = canonical_text t :=
    toLowerT_of_fixed _ (fun c hc => isCanonChar_lower_fixed c (hmem c hc))
  have h3 : collapseWs (canonical_text t) = canonical_text t :=
    collapseWsAux_of_no_ws _ hnws false
  conv_lhs => rw [canonical_text, normalize_text]
  rw [h1, h2, h3]
  exact List.filter_eq_self.mpr hmem

/-- Claim C9: both text normalizers are idempotent, and being plain Lean
functions on `Txt` they are pure and total by construction. -/
theorem claim_C9_normalizers_idempotent : ∀ t : Txt,
    normalize_text (normalize_text t) = normalize_text t ∧
    canonical_text (canonical_text t) = canonical_text t :=
  fun t => ⟨normalize_text_idem t, canonical_text_idem t⟩

/-- Claim C4: extraction never emits two rows with the same normalized
composite key, per-country grouping never emits two entries with the
same normalized key inside one country, and feeding the same medal row
twice - the copies differing only in whitespace, letter case and a
bracketed footnote marker - yields exactly the one record built from the
first copy. -/
theorem claim_C4_dedup_invariant :
    (∀ tables : List Table,
      (fetch_medal_winner_rows tables).Pairwise (fun a b => dedupeKey a ≠ dedupeKey b)) ∧
    (∀ rows : List RowData, (fetch_medal_events rows).Forall
      (fun p => p.2.Pairwise (fun a b => evDedupeKey a ≠ evDedupeKey b))) ∧
    fetch_medal_winner_rows [blankTable, blankTable, dupRowTable] = [dupKeptRecord] := by
  refine ⟨?_, ?_, by decide⟩
  · intro tables
    exact dedupeBy_pairwise dedupeKey _ []
  · intro rows
    rw [List.forall_iff_forall_mem]
    intro p hp
    simp only [fetch_medal_events, List.mem_map] at hp
    obtain ⟨noc, _, rfl⟩ := hp
    exact dedupeBy_pairwise evDedupeKey _ []

/-- Claim C5: the candidate country names are ordered by descending length, so
a longer suffix match always wins; on the concrete inputs the splitter
returns the full athlete prefix with the doubled whitespace collapsed. -/
theorem claim_C5_longest_suffix_first :
    COUNTRY_NAMES_BY_LENGTH.Pairwise (fun a b => b.length ≤ a.length) ∧
    extract_athlete_and_country (enc (r"Kim Min-jae South Korea")) =
      (some (enc (r"Kim Min-jae")), some (enc (r"KOR"))) ∧
    extract_athlete_and_country (enc (r"Franjo von Allmen  Switzerland")) =
      (some (enc (r"Franjo von Allmen")), some (enc (r"SUI"))) := by
  refine ⟨by decide, by decide, by decide⟩

/-! ## Lemmas about the stable ranking sort -/

theorem scoreKeyLe_iff (a b : ScoredRow) :
    scoreKeyLe a b = true ↔
      (b.points_total < a.points_total ∨
        (a.points_total = b.points_total ∧ b.total_medals ≤ a.total_medals)) := by
  rw [scoreKeyLe]
  by_cases h : a.points_total = b.points_total
  · simp [h, decide_eq_true_eq]
  · simp only [h, if_false, decide_eq_true_eq, false_and, or_false]
    constructor
    · intro hle
      exact lt_of_le_of_ne hle (fun he => h he.symm)
    · exact le_of_lt

theorem scoreKeyLe_trans (a b c : ScoredRow)
    (hab : scoreKeyLe a b = true) (hbc : scoreKeyLe b c = true) :
    scoreKeyLe a c = true := by
  rw [scoreKeyLe_iff] at hab hbc ⊢
  rcases hab with h1 | ⟨h1, h1m⟩
  · rcases hbc with h2 | ⟨h2, h2m⟩
    · exact Or.inl (h2.trans h1)
    · exact Or.inl (h2 ▸ h1)
  · rcases hbc with h2 | ⟨h2, h2m⟩
    · exact Or.inl (h1 ▸ h2)
    · exact Or.inr ⟨h1.trans h2, le_trans h2m h1m⟩

theorem scoreKeyLe_total (a b : ScoredRow) :
    scoreKeyLe a b = true ∨ scoreKeyLe b a = true := by
  rw [scoreKeyLe_iff, scoreKeyLe_iff]
  rcases lt_trichotomy a.points_total b.points_total with h | h | h
  · exact Or.inr (Or.inl h)
  · rcases le_total b.total_medals a.total_medals with hm | hm
    · exact Or.inl (Or.inr ⟨h, hm⟩)
    · exact Or.inr (Or.inr ⟨h.symm, hm⟩)
  · exact Or.inl (Or.inl h)

theorem idxLe_trans {α : Type} (le : α → α → Bool)
    (hT : ∀ x y z, le x y = true → le y z = true → le x z = true) :
    ∀ a b c : Nat × α, idxLe le a b = true → idxLe le b c = true → idxLe le a c = true := by
  intro a b c hab hbc
  simp only [idxLe] at hab hbc ⊢
  by_cases h1 : le a.2 b.2 = true
  · by_cases h2 : le b.2 c.2 = true
    · have h3 : le a.2 c.2 = true := hT _ _ _ h1 h2
      rw [if_pos h3]
      by_cases h4 : le c.2 a.2 = true
      · rw [if_pos h4]
        have hcb : le c.2 b.2 = true := hT _ _ _ h4 h1
        have hba : le b.2 a.2 = true := hT _ _ _ h2 h4
        rw [if_pos h1, if_pos hba] at hab
        rw [if_pos h2, if_pos hcb] at hbc
        simp only [decide_eq_true_eq] at hab hbc ⊢
        exact le_trans hab hbc
      · rw [if_neg h4]
    · rw [if_neg h2] at hbc
      exact absurd hbc Bool.false_ne_true
  · rw [if_neg h1] at hab
    exact absurd hab Bool.false_ne_true

theorem idxLe_total {α : Type} (le : α → α → Bool)
    (hTot : ∀ x y, le x y = true ∨ le y x = true) :
    ∀ a b : Nat × α, idxLe le a b = true ∨ idxLe le b a = true := by
  intro a b
  simp only [idxLe]
  by_cases h1 : le a.2 b.2 = true
  · by_cases h2 : le b.2 a.2 = true
    · rcases Nat.le_total a.1 b.1 with hn | hn
      · left; rw [if_pos h1, if_pos h2]; simpa using hn
      · right; rw [if_pos h2, if_pos h1]; simpa using hn
    · left; rw [if_pos h1, if_neg h2]
  · rcases hTot a.2 b.2 with h | h
    · exact absurd h h1
    · right
      rw [if_pos h, if_neg h1]

theorem stableSortEnum_sorted {α : Type} (le : α → α → Bool)
    (hT : ∀ x y z, le x y = true → le y z = true → le x z = true)
    (hTot : ∀ x y, le x y = true ∨ le y x = true) (l : List α) :
    (stableSortEnum le l).Pairwise (stableRel le) := by
  letI : IsTrans (Nat × α) (stableRel le) := ⟨fun a b c => idxLe_trans le hT a b c⟩
  letI : IsTotal (Nat × α) (stableRel le) := ⟨fun a b => idxLe_total le hTot a b⟩
  exact List.sorted_insertionSort _ _

theorem stableSortEnum_perm {α : Type} (le : α → α → Bool) (l : List α) :
    List.Perm (stableSortEnum le l) l.enum :=
  List.perm_insertionSort _ _

theorem stableSortBy_perm {α : Type} (le : α → α → Bool) (l : List α) :
    List.Perm (stableSortBy le l) l := by
  have h := (stableSortEnum_perm le l).map Prod.snd
  rw [List.enum_map_snd] at h
  exact h

theorem stableSortEnum_fst_ne {α : Type} (le : α → α → Bool) (l : List α) :
    (stableSortEnum le l).Pairwise (fun a b => a.1 ≠ b.1) := by
  have hp : List.Perm ((stableSortEnum le l).map Prod.fst) (l.enum.map Prod.fst) :=
    (stableSortEnum_perm le l).map Prod.fst
  have hn : ((stableSortEnum le l).map Prod.fst).Nodup := by
    rw [hp.nodup_iff, List.enum_map_fst]
    exact List.nodup_range _
  have hn2 : ((stableSortEnum le l).map Prod.fst).Pairwise (fun a b => a ≠ b) := hn
  exact List.pairwise_map.mp hn2

/-- Claim C3: the ranking returned by build_friend_scores is exactly the
roster-derived scored rows (a permutation of them), sorted by total
points descending, ties broken by combined medal count descending, and
remaining ties preserving the original roster position (the enumerated
form carries the original index in the first component). -/
theorem claim_C3_ranking_order :
    ∀ (friends : List FriendRow) (medals : List MedalsRow) (double_df : List DDRow),
      build_friend_scores friends medals double_df =
        (stableSortEnum scoreKeyLe (scoreRows friends medals double_df)).map Prod.snd ∧
      List.Perm (build_friend_scores friends medals double_df)
        (scoreRows friends medals double_df) ∧
      (stableSortEnum scoreKeyLe (scoreRows friends medals double_df)).Pairwise
        (fun a b => b.2.points_total < a.2.points_total ∨
          (a.2.points_total = b.2.points_total ∧
            (b.2.total_medals < a.2.total_medals ∨
              (a.2.total_medals = b.2.total_medals ∧ a.1 < b.1)))) := by
  intro friends medals double_df
  refine ⟨rfl, stableSortBy_perm _ _, ?_⟩
  have h1 := stableSortEnum_sorted scoreKeyLe scoreKeyLe_trans scoreKeyLe_total
    (scoreRows friends medals double_df)
  have h2 := stableSortEnum_fst_ne scoreKeyLe (scoreRows friends medals double_df)
  refine (h1.and h2).imp ?_
  intro a b hab
  obtain ⟨hrel, hne⟩ := hab
  rw [stableRel, idxLe] at hrel
  by_cases hle : scoreKeyLe a.2 b.2 = true
  · rw [if_pos hle] at hrel
    rw [scoreKeyLe_iff] at hle
    rcases hle with h | ⟨heq, hm⟩
    · exact Or.inl h
    · refine Or.inr ⟨heq, ?_⟩
      rcases lt_or_eq_of_le hm with hml | hme
      · exact Or.inl hml
      · refine Or.inr ⟨hme.symm, ?_⟩
        have hba : scoreKeyLe b.2 a.2 = true := by
          rw [scoreKeyLe_iff]
          exact Or.inr ⟨heq.symm, le_of_eq hme.symm⟩
        rw [if_pos hba] at hrel
        simp only [decide_eq_true_eq] at hrel
        exact lt_of_le_of_ne hrel hne
  · rw [if_neg hle] at hrel
    exact absurd hrel Bool.false_ne_true

/-! ## Lemmas about scoring -/

theorem get_dd_points_eq (d : List DDRow) (noc : Txt) :
    get_dd_points d noc =
      (if noc = enc (r"NOR") then (1 : ℚ) / 2 else 1) * ddRawPoints d noc := by
  rw [get_dd_points, ddRawPoints]
  cases hf : d.find? (fun x => x.noc == noc) with
  | none => simp
  | some x =>
    dsimp only
    by_cases h : noc = enc (r"NOR")
    · rw [if_pos h, if_pos h]
      ring
    · rw [if_neg h, if_neg h]
      ring

theorem scoreRow_points_1_eq (m : List MedalsRow) (d : List DDRow) (f : FriendRow) :
    (scoreRow m d f).points_1 =
      (if (scoreRow m d f).noc_1 = enc (r"NOR") then (1 : ℚ) / 2 else 1) *
        (((scoreRow m d f).gold_1 : ℚ) * 3 + ((scoreRow m d f).silver_1 : ℚ) * 2 +
          ((scoreRow m d f).bronze_1 : ℚ) * 1) := by
  simp only [scoreRow, wGold, wSilver, wBronze]
  split_ifs <;> ring

theorem scoreRow_points_2_eq (m : List MedalsRow) (d : List DDRow) (f : FriendRow) :
    (scoreRow m d f).points_2 =
      (if (scoreRow m d f).noc_2 = enc (r"NOR") then (1 : ℚ) / 2 else 1) *
        (((scoreRow m d f).gold_2 : ℚ) * 3 + ((scoreRow m d f).silver_2 : ℚ) * 2 +
          ((scoreRow m d f).bronze_2 : ℚ) * 1) := by
  simp only [scoreRow, wGold, wSilver, wBronze]
  split_ifs <;> ring

theorem scoreRow_dd_eq (m : List MedalsRow) (d : List DDRow) (f : FriendRow) :
    (scoreRow m d f).daily_double =
      (if d.isEmpty then 0 else
        (if (scoreRow m d f).noc_1 = enc (r"NOR") then (1 : ℚ) / 2 else 1) *
            ddRawPoints d (scoreRow m d f).noc_1 +
          (if (scoreRow m d f).noc_2 = enc (r"NOR") then (1 : ℚ) / 2 else 1) *
            ddRawPoints d (scoreRow m d f).noc_2) := by
  simp only [scoreRow]
  by_cases hd : d.isEmpty
  · simp [hd]
  · simp [hd, get_dd_points_eq]

theorem scoreRow_total_eq (m : List MedalsRow) (d : List DDRow) (f : FriendRow) :
    (scoreRow m d f).points_total =
      (scoreRow m d f).points_1 + (scoreRow m d f).points_2 + (scoreRow m d f).daily_double :=
  rfl

theorem scoreRow_gold_1 (m : List MedalsRow) (d : List DDRow) (f : FriendRow) :
    (scoreRow m d f).gold_1 =
      ((m.find? (fun x => x.noc == (scoreRow m d f).noc_1)).map MedalsRow.gold).getD 0 :=
  rfl

theorem scoreRow_silver_1 (m : List MedalsRow) (d : List DDRow) (f : FriendRow) :
    (scoreRow m d f).silver_1 =
      ((m.find? (fun x => x.noc == (scoreRow m d f).noc_1)).map MedalsRow.silver).getD 0 :=
  rfl

theorem scoreRow_bronze_1 (m : List MedalsRow) (d : List DDRow) (f : FriendRow) :
    (scoreRow m d f).bronze_1 =
      ((m.find? (fun x => x.noc == (scoreRow m d f).noc_1)).map MedalsRow.bronze).getD 0 :=
  rfl

theorem scoreRow_gold_2 (m : List MedalsRow) (d : List DDRow) (f : FriendRow) :
    (scoreRow m d f).gold_2 =
      ((m.find? (fun x => x.noc == (scoreRow m d f).noc_2)).map MedalsRow.gold).getD 0 :=
  rfl

theorem scoreRow_silver_2 (m : List MedalsRow) (d : List DDRow) (f : FriendRow) :
    (scoreRow m d f).silver_2 =
      ((m.find? (fun x => x.noc == (scoreRow m d f).noc_2)).map MedalsRow.silver).getD 0 :=
  rfl

theorem scoreRow_bronze_2 (m : List MedalsRow) (d : List DDRow) (f : FriendRow) :
    (scoreRow m d f).bronze_2 =
      ((m.find? (fun x => x.noc == (scoreRow m d f).noc_2)).map MedalsRow.bronze).getD 0 :=
  rfl

/-- Claim C1: every scored entry carries weighted points gold times three plus
silver times two plus bronze, computed from the looked-up medal totals
of its codes with missing lookups defaulting to zero, the penalty code
NOR halved exactly once in the base points and exactly once in the daily
double bonus (never compounded), and the total being the plain sum; the
concrete roster with totals two gold, one silver, zero bronze scores
eight points, halved to four when the picked code is NOR. -/
theorem claim_C1_scoring :
    (∀ (friends : List FriendRow) (medals : List MedalsRow) (double_df : List DDRow),
      (build_friend_scores friends medals double_df).Forall (fun row =>
        row.points_1 = (if row.noc_1 = enc (r"NOR") then (1 : ℚ) / 2 else 1) *
          ((row.gold_1 : ℚ) * 3 + (row.silver_1 : ℚ) * 2 + (row.bronze_1 : ℚ) * 1) ∧
        row.points_2 = (if row.noc_2 = enc (r"NOR") then (1 : ℚ) / 2 else 1) *
          ((row.gold_2 : ℚ) * 3 + (row.silver_2 : ℚ) * 2 + (row.bronze_2 : ℚ) * 1) ∧
        row.daily_double = (if double_df.isEmpty then 0 else
          (if row.noc_1 = enc (r"NOR") then (1 : ℚ) / 2 else 1) *
              ddRawPoints double_df row.noc_1 +
            (if row.noc_2 = enc (r"NOR") then (1 : ℚ) / 2 else 1) *
              ddRawPoints double_df row.noc_2) ∧
        row.points_total = row.points_1 + row.points_2 + row.daily_double ∧
        row.gold_1 = (((normalize_medals_df medals).find? (fun x => x.noc == row.noc_1)).map
          MedalsRow.gold).getD 0 ∧
        row.silver_1 = (((normalize_medals_df medals).find? (fun x => x.noc == row.noc_1)).map
          MedalsRow.silver).getD 0 ∧
        row.bronze_1 = (((normalize_medals_df medals).find? (fun x => x.noc == row.noc_1)).map
          MedalsRow.bronze).getD 0 ∧
        row.gold_2 = (((normalize_medals_df medals).find? (fun x => x.noc == row.noc_2)).map
          MedalsRow.gold).getD 0 ∧
        row.silver_2 = (((normalize_medals_df medals).find? (fun x => x.noc == row.noc_2)).map
          MedalsRow.silver).getD 0 ∧
        row.bronze_2 = (((normalize_medals_df medals).find? (fun x => x.noc == row.noc_2)).map
          MedalsRow.bronze).getD 0)) ∧
    (build_friend_scores rosterSwiss medalsSwiss []).map
      (fun row => (row.points_1, row.points_total)) = [(8, 8)] ∧
    (build_friend_scores rosterNor medalsNor []).map
      (fun row => (row.points_1, row.points_total)) = [(4, 4)] := by
  refine ⟨?_, ?_, ?_⟩
  · intro friends medals double_df
    rw [List.forall_iff_forall_mem]
    intro row hrow
    have hmem : row ∈ scoreRows friends medals double_df :=
      (stableSortBy_perm scoreKeyLe _).mem_iff.mp hrow
    simp only [scoreRows, List.mem_map] at hmem
    obtain ⟨f1, _, rfl⟩ := hmem
    exact ⟨scoreRow_points_1_eq _ _ _, scoreRow_points_2_eq _ _ _, scoreRow_dd_eq _ _ _,
      scoreRow_total_eq _ _ _, scoreRow_gold_1 _ _ _, scoreRow_silver_1 _ _ _,
      scoreRow_bronze_1 _ _ _, scoreRow_gold_2 _ _ _, scoreRow_silver_2 _ _ _,
      scoreRow_bronze_2 _ _ _⟩
  · have hA : build_friend_scores rosterSwiss medalsSwiss [] =
        [scoreRow (normalize_medals_df medalsSwiss) [] aliceClean] := rfl
    rw [hA]
    simp only [List.map_cons, List.map_nil, List.cons.injEq, Prod.mk.injEq, and_true]
    have hg : (scoreRow (normalize_medals_df medalsSwiss) [] aliceClean).gold_1 = 2 := by decide
    have hs : (scoreRow (normalize_medals_df medalsSwiss) [] aliceClean).silver_1 = 1 := by
      decide
    have hb : (scoreRow (normalize_medals_df medalsSwiss) [] aliceClean).bronze_1 = 0 := by
      decide
    have hg2 : (scoreRow (normalize_medals_df medalsSwiss) [] aliceClean).gold_2 = 0 := by decide
    have hs2 : (scoreRow (normalize_medals_df medalsSwiss) [] aliceClean).silver_2 = 0 := by
      decide
    have hb2 : (scoreRow (normalize_medals_df medalsSwiss) [] aliceClean).bronze_2 = 0 := by
      decide
    have hn1 : (scoreRow (normalize_medals_df medalsSwiss) [] aliceClean).noc_1 =
        enc (r"SUI") := by decide
    have hn2 : (scoreRow (normalize_medals_df medalsSwiss) [] aliceClean).noc_2 = [] := by decide
    have hp1 : (scoreRow (normalize_medals_df medalsSwiss) [] aliceClean).points_1 = 8 := by
      rw [scoreRow_points_1_eq, hg, hs, hb, hn1, if_neg (by decide)]
      norm_num
    have hp2 : (scoreRow (normalize_medals_df medalsSwiss) [] aliceClean).points_2 = 0 := by
      rw [scoreRow_points_2_eq, hg2, hs2, hb2, hn2, if_neg (by decide)]
      norm_num
    have hdd : (scoreRow (normalize_medals_df medalsSwiss) [] aliceClean).daily_double = 0 := rfl
    have hpt : (scoreRow (normalize_medals_df medalsSwiss) [] aliceClean).points_total = 8 := by
      rw [scoreRow_total_eq, hp1, hp2, hdd]
      norm_num
    exact ⟨hp1, hpt⟩
  · have hA : build_friend_scores rosterNor medalsNor [] =
        [scoreRow (normalize_medals_df medalsNor) [] bobClean] := rfl
    rw [hA]
    simp only [List.map_cons, List.map_nil, List.cons.injEq, Prod.mk.injEq, and_true]
    have hg : (scoreRow (normalize_medals_df medalsNor) [] bobClean).gold_1 = 2 := by decide
    have hs : (scoreRow (normalize_medals_df medalsNor) [] bobClean).silver_1 = 1 := by decide
    have hb : (scoreRow (normalize_medals_df medalsNor) [] bobClean).bronze_1 = 0 := by decide
    have hg2 : (scoreRow (normalize_medals_df medalsNor) [] bobClean).gold_2 = 0 := by decide
    have hs2 : (scoreRow (normalize_medals_df medalsNor) [] bobClean).silver_2 = 0 := by decide
    have hb2 : (scoreRow (normalize_medals_df medalsNor) [] bobClean).bronze_2 = 0 := by decide
    have hn1 : (scoreRow (normalize_medals_df medalsNor) [] bobClean).noc_1 =
        enc (r"NOR") := by decide
    have hn2 : (scoreRow (normalize_medals_df medalsNor) [] bobClean).noc_2 = [] := by decide
    have hp1 : (scoreRow (normalize_medals_df medalsNor) [] bobClean).points_1 = 4 := by
      rw [scoreRow_points_1_eq, hg, hs, hb, hn1, if_pos rfl]
      norm_num
    have hp2 : (scoreRow (normalize_medals_df medalsNor) [] bobClean).points_2 = 0 := by
      rw [scoreRow_points_2_eq, hg2, hs2, hb2, hn2, if_neg (by decide)]
      norm_num
    have hdd : (scoreRow (normalize_medals_df medalsNor) [] bobClean).daily_double = 0 := rfl
    have hpt : (scoreRow (normalize_medals_df medalsNor) [] bobClean).points_total = 4 := by
      rw [scoreRow_total_eq, hp1, hp2, hdd]
      norm_num
    exact ⟨hp1, hpt⟩

/-- Claim C7: the boolean matcher agrees exactly with the specified predicate
- sport and gender must equal the required ones when specified, the
canonical event name must lie in a non-empty exact-match set, contain no
excluded keyword and contain every required keyword - and on the
concrete record the slalom descriptor matches while the giant slalom
exact-match descriptor does not. -/
theorem claim_C7_daily_double_match :
    (∀ (w : RowData) (cfg : DDConfig),
      matches_daily_double w cfg = true ↔ matchesDailyDoubleSpec w cfg) ∧
    matches_daily_double slalomRecord ddMensAlpineSlalom = true ∧
    matches_daily_double slalomRecord ddMensGiantSlalom = false := by
  refine ⟨?_, by decide, by decide⟩
  intro w cfg
  simp only [matches_daily_double, matchesDailyDoubleSpec]
  split_ifs with h1 h2 h3 h4
  · simp only [Bool.false_eq_true, false_iff]
    intro hs
    exact h1.2 (hs.1 h1.1)
  · simp only [Bool.false_eq_true, false_iff]
    intro hs
    exact h2.2 (hs.2.1 h2.1)
  · simp only [Bool.false_eq_true, false_iff]
    intro hs
    exact h3.2 (hs.2.2.1 h3.1)
  · simp only [Bool.false_eq_true, false_iff]
    intro hs
    rw [List.any_eq_true] at h4
    obtain ⟨k, hk, hdk⟩ := h4
    exact hs.2.2.2.1 k hk (of_decide_eq_true hdk)
  · push_neg at h1 h2 h3
    constructor
    · intro hall
      refine ⟨h1, h2, h3, ?_, ?_⟩
      · intro k hk hke
        exact h4 (List.any_eq_true.mpr ⟨k, hk, decide_eq_true hke⟩)
      · intro k hk
        exact of_decide_eq_true (List.all_eq_true.mp hall k hk)
    · intro hs
      rw [List.all_eq_true]
      intro k hk
      exact decide_eq_true (hs.2.2.2.2 k hk)

/-! ## Lemmas about the table extractor -/

theorem fetch_append_of_records_nil (tables : List Table) (t : Table)
    (h : tableRecords tables.length t = []) :
    fetch_medal_winner_rows (tables ++ [t]) = fetch_medal_winner_rows tables := by
  rw [fetch_medal_winner_rows, fetch_medal_winner_rows]
  congr 1
  rw [List.enum_append, List.map_append, List.flatten_append]
  have he : (List.enumFrom tables.length [t]).map (fun p => tableRecords p.1 p.2) = [[]] := by
    simp [List.enumFrom, h]
  rw [he]
  simp

theorem rowRecords_sport_gender (sport gender : Txt) (row : TableRow) (x : RowData)
    (hx : x ∈ rowRecords sport gender row) : x.sport = sport ∧ x.gender = gender := by
  simp only [rowRecords] at hx
  split at hx
  · simp at hx
  · split at hx
    · simp at hx
    · rw [List.mem_filterMap] at hx
      obtain ⟨mc, _, hg⟩ := hx
      split at hg
      · exact absurd hg (by simp)
      · split at hg
        · split at hg
          · exact absurd hg (by simp)
          · simp only [Option.some.injEq] at hg
            subst hg
            exact ⟨rfl, rfl⟩
        · exact absurd hg (by simp)

theorem fetch_sport_gender_from_map (tables : List Table) :
    (fetch_medal_winner_rows tables).Forall
      (fun x => (x.sport, x.gender) ∈ TABLE_TO_SPORT.map Prod.snd) := by
  rw [List.forall_iff_forall_mem]
  intro x hx
  have hx2 := mem_of_mem_dedupeBy dedupeKey _ _ x hx
  rw [List.mem_flatten] at hx2
  obtain ⟨lrec, hl, hxl⟩ := hx2
  rw [List.mem_map] at hl
  obtain ⟨⟨i, t⟩, _, rfl⟩ := hl
  rw [tableRecords] at hxl
  split at hxl
  · split at hxl
    · rename_i p hfind
      rw [List.mem_flatMap] at hxl
      obtain ⟨row, _, hxr⟩ := hxl
      have hsg := rowRecords_sport_gender _ _ _ _ hxr
      have hp : p ∈ TABLE_TO_SPORT := List.mem_of_find?_eq_some hfind
      rw [hsg.1, hsg.2]
      exact List.mem_map_of_mem Prod.snd hp
    · simp at hxl
  · simp at hxl

/-- Claim C2, counterexample: a table that has the event and gold headers and a
row whose event name carries an explicit gender keyword, but whose
positional index has no TABLE_TO_SPORT entry, contributes no records at
all - the extractor discards it instead of inferring the sport and
gender from the event keywords. -/
theorem claim_C2_counterexample : fetch_medal_winner_rows [unmappedTable] = [] := by decide

/-- Claim C2, amended: a table whose index is missing from TABLE_TO_SPORT is
discarded entirely, and every emitted record takes its sport and gender
pair from the static TABLE_TO_SPORT mapping - there is no inference from
event-name keywords and no gender carry-forward. -/
theorem claim_C2_amended :
    (∀ (tables : List Table) (t : Table),
      TABLE_TO_SPORT.find? (fun p => p.1 == tables.length) = none →
      fetch_medal_winner_rows (tables ++ [t]) = fetch_medal_winner_rows tables) ∧
    (∀ tables : List Table, (fetch_medal_winner_rows tables).Forall
      (fun x => (x.sport, x.gender) ∈ TABLE_TO_SPORT.map Prod.snd)) := by
  refine ⟨?_, fetch_sport_gender_from_map⟩
  intro tables t hfind
  apply fetch_append_of_records_nil
  rw [tableRecords]
  split
  · rw [hfind]
  · rfl

/-- Witness for the amended C2 statement at a concrete input. -/
theorem claim_C2_amended_witness :
    fetch_medal_winner_rows ([] ++ [unmappedTable]) = fetch_medal_winner_rows [] :=
  claim_C2_amended.1 [] unmappedTable (by decide)

/-- Claim C6, counterexample: with exactly the two tables of the scenario the
extractor returns no records at all, not one - the good table sits at
positional index 0, which has no TABLE_TO_SPORT entry, so it is
discarded along with the malformed one. -/
theorem claim_C6_counterexample :
    fetch_medal_winner_rows [goodSwissTable, malformedTable] = [] := by decide

/-- Claim C6, amended: when the correctly structured Swiss gold table sits at a
mapped index (index 2, after two filler tables) the extractor returns
exactly the one Swiss record and silently skips the malformed table
missing a gold header; in general a table without a gold header
contributes no records and causes no failure. -/
theorem claim_C6_amended :
    fetch_medal_winner_rows [blankTable, blankTable, goodSwissTable, malformedTable] =
      [swissRecord] ∧
    (∀ (tables : List Table) (t : Table),
      (enc (r"gold")) ∉ t.cols.map toLowerT →
      fetch_medal_winner_rows (tables ++ [t]) = fetch_medal_winner_rows tables) := by
  refine ⟨by decide, ?_⟩
  intro tables t hgold
  apply fetch_append_of_records_nil
  rw [tableRecords, if_neg]
  intro hand
  exact hgold hand.2

/-- Witness for the amended C6 statement at a concrete input. -/
theorem claim_C6_amended_witness :
    fetch_medal_winner_rows ([] ++ [malformedTable]) = fetch_medal_winner_rows [] :=
  claim_C6_amended.2 [] malformedTable (by decide)

/-- Claim C8: the splitter rejects the empty cell and the literal NaN cell,
rejects any cell shorter than three characters at the guard, and in
general returns the none pair whenever neither the suffix pass nor the
whole-word pass resolves a country - it never raises and never
guesses. -/
theorem claim_C8_unresolvable_cells (cell_text : Txt) :
    extract_athlete_and_country (enc (r"")) = (none, none) ∧
    extract_athlete_and_country (enc (r"NaN")) = (none, none) ∧
    (cell_text.length < 3 → extract_athlete_and_country cell_text = (none, none)) ∧
    (suffixScan COUNTRY_NAMES_BY_LENGTH (toLowerT (cleanedCell cell_text))
        (cleanedCell cell_text) = none →
      wordScan COUNTRY_NAMES_BY_LENGTH (toLowerT (cleanedCell cell_text))
        (cleanedCell cell_text) = none →
      extract_athlete_and_country cell_text = (none, none)) := by
  refine ⟨by decide, by decide, ?_, ?_⟩
  · intro hlen
    rw [extract_athlete_and_country, if_pos (Or.inr (Or.inr hlen))]
  · intro hs hw
    simp only [extract_athlete_and_country]
    split
    · rfl
    · rw [hs, hw]

/-- Witness for C8 at concrete inputs: a two-character cell is rejected
at the guard, and a cell resolving no country yields the none pair. -/
theorem claim_C8_unresolvable_cells_witness :
    extract_athlete_and_country (enc (r"ab")) = (none, none) ∧
    extract_athlete_and_country (enc (r"qqqq")) = (none, none) :=
  ⟨(claim_C8_unresolvable_cells (enc (r"ab"))).2.2.1 (by decide),
   (claim_C8_unresolvable_cells (enc (r"qqqq"))).2.2.2 (by decide) (by decide)⟩

/-! ## Lemmas about cell cleaning lengths and the suffix scan -/

theorem length_collapseWsAux_le : ∀ (t : Txt) (b : Bool),
    (collapseWsAux b t).length ≤ t.length := by
  intro t
  induction t with
  | nil => intro b; exact le_refl 0
  | cons c cs ih =>
    intro b
    cases hws : isWsChar c with
    | false =>
      rw [collapseWsAux_cons_not_ws b c cs hws]
      simpa using ih false
    | true =>
      cases b with
      | true =>
        rw [collapseWsAux_cons_ws_true c cs hws]
        exact le_trans (ih true) (Nat.le_succ _)
      | false =>
        rw [collapseWsAux_cons_ws_false c cs hws]
        simpa using ih true

theorem length_stripT_le (t : Txt) : (stripT t).length ≤ t.length := by
  rw [stripT, List.length_reverse]
  calc ((t.dropWhile isWsChar).reverse.dropWhile isWsChar).length
      ≤ (t.dropWhile isWsChar).reverse.length := (List.dropWhile_suffix _).length_le
    _ = (t.dropWhile isWsChar).length := List.length_reverse _
    _ ≤ t.length := (List.dropWhile_suffix _).length_le

theorem length_stripFnAux_le : ∀ (t pending : Txt),
    (stripFnAux pending t).length ≤ pending.length + t.length := by
  intro t
  induction t with
  | nil => intro pending; simp [stripFnAux]
  | cons c cs ih =>
    intro pending
    cases pending with
    | nil =>
      by_cases hc : c = 91
      · rw [stripFnAux, if_pos hc]
        have := ih [91]
        simp only [List.length_cons, List.length_nil] at this ⊢
        omega
      · rw [stripFnAux, if_neg hc]
        have := ih []
        simp only [List.length_cons, List.length_nil] at this ⊢
        omega
    | cons p ps =>
      by_cases hc : c = 93
      · rw [stripFnAux, if_pos hc]
        by_cases hps : ps.isEmpty
        · rw [if_pos hps]
          have := ih []
          have hps0 : ps.length = 0 := by
            cases ps with
            | nil => rfl
            | cons q qs => simp [List.isEmpty] at hps
          simp only [List.length_cons, List.length_nil] at this ⊢
          omega
        · rw [if_neg hps]
          have := ih []
          simp only [List.length_cons, List.length_nil] at this ⊢
          omega
      · rw [stripFnAux, if_neg hc]
        have := ih (p :: ps ++ [c])
        simp only [List.length_cons, List.length_append, List.length_nil] at this ⊢
        omega

theorem length_cleanedCell_le (cell_text : Txt) :
    (cleanedCell cell_text).length ≤ cell_text.length := by
  rw [cleanedCell]
  calc (stripT (collapseWs (stripFootnotes cell_text))).length
      ≤ (collapseWs (stripFootnotes cell_text)).length := length_stripT_le _
    _ ≤ (stripFootnotes cell_text).length := length_collapseWsAux_le _ _
    _ ≤ cell_text.length := by
        have := length_stripFnAux_le cell_text []
        simpa [stripFootnotes] using this

theorem suffixScan_exact : ∀ (names : List Txt) (cleaned name : Txt),
    names.Pairwise (fun a b => b.length ≤ a.length) →
    name ∈ names → toLowerT cleaned = name →
    suffixScan names (toLowerT cleaned) cleaned = some ([], lookupNOC name) := by
  intro names
  induction names with
  | nil =>
    intro cleaned name _ hmem _
    simp at hmem
  | cons n ns ih =>
    intro cleaned name hpair hmem heq
    by_cases hn : n = name
    · subst hn
      have hsuf : n.isSuffixOf (toLowerT cleaned) = true := by
        rw [heq, List.isSuffixOf_iff_suffix]
      simp only [suffixScan, hsuf, if_true]
      have hlen : cleaned.length = n.length := by
        rw [← heq, toLowerT, List.length_map]
      rw [hlen, Nat.sub_self]
      rfl
    · have hmem2 : name ∈ ns := by
        rcases List.mem_cons.mp hmem with h | h
        · exact absurd h.symm hn
        · exact h
      have hlen_le : name.length ≤ n.length :=
        (List.pairwise_cons.mp hpair).1 name hmem2
      have hnsuf : n.isSuffixOf (toLowerT cleaned) = false := by
        cases hb : n.isSuffixOf (toLowerT cleaned) with
        | false => rfl
        | true =>
          exfalso
          have hsfx := List.isSuffixOf_iff_suffix.mp hb
          rw [heq] at hsfx
          have hle := hsfx.length_le
          exact hn (hsfx.eq_of_length (le_antisymm hle hlen_le))
      simp only [suffixScan, hnsuf, Bool.false_eq_true, if_false]
      exact ih cleaned name (List.pairwise_cons.mp hpair).2 hmem2 heq

theorem extract_pair_shape (cell_text : Txt) :
    extract_athlete_and_country cell_text = (none, none) ∨
    ∃ a n, extract_athlete_and_country cell_text = (some a, some n) := by
  simp only [extract_athlete_and_country]
  split
  · exact Or.inl rfl
  · cases hs : suffixScan COUNTRY_NAMES_BY_LENGTH (toLowerT (cleanedCell cell_text))
        (cleanedCell cell_text) with
    | some pr => exact Or.inr ⟨pr.1, pr.2, rfl⟩
    | none =>
      cases hw : wordScan COUNTRY_NAMES_BY_LENGTH (toLowerT (cleanedCell cell_text))
          (cleanedCell cell_text) with
      | some pr => exact Or.inr ⟨pr.1, pr.2, rfl⟩
      | none => exact Or.inl rfl

/-- Claim C10: a cell whose cleaned text is exactly a known country name
resolves to that country with the empty string as athlete (not the none
pair); whenever a code is resolved the athlete component is a string,
never none; and the extractor emits a team-credit record with an empty
athlete for such a cell. -/
theorem claim_C10_team_credit :
    (∀ (cell_text name noc : Txt), (name, noc) ∈ COUNTRY_TO_NOC →
      toLowerT (cleanedCell cell_text) = name →
      extract_athlete_and_country cell_text = (some [], some noc)) ∧
    (∀ cell_text : Txt, ((extract_athlete_and_country cell_text).2).isSome = true →
      ∃ a, (extract_athlete_and_country cell_text).1 = some a) ∧
    fetch_medal_winner_rows [blankTable, blankTable, teamCellTable] = [teamCreditRecord] ∧
    teamCreditRecord.athlete = [] := by
  refine ⟨?_, ?_, by decide, rfl⟩
  · intro cell_text name noc hmem heq
    have hfacts : ∀ p ∈ COUNTRY_TO_NOC,
        p.1 ∈ COUNTRY_NAMES_BY_LENGTH ∧ lookupNOC p.1 = p.2 ∧ 3 ≤ p.1.length := by decide
    have hpair : COUNTRY_NAMES_BY_LENGTH.Pairwise (fun a b => b.length ≤ a.length) := by decide
    have hnan : (enc (r"nan")) ∉ COUNTRY_NAMES_BY_LENGTH := by decide
    obtain ⟨hname_mem, hlook, hlen3⟩ := hfacts (name, noc) hmem
    have hlen3n : 3 ≤ name.length := hlen3
    have hcl : (cleanedCell cell_text).length = name.length := by
      rw [← heq, toLowerT, List.length_map]
    have hcell3 : 3 ≤ cell_text.length := by
      have := length_cleanedCell_le cell_text
      omega
    have hguard : ¬(cell_text = [] ∨ cell_text = enc (r"nan") ∨ cell_text.length < 3) := by
      intro hor
      rcases hor with h | h | h
      · rw [h] at hcell3
        simp at hcell3
      · have hval : toLowerT (cleanedCell (enc (r"nan"))) = enc (r"nan") := by decide
        rw [h, hval] at heq
        exact hnan (heq ▸ hname_mem)
      · omega
    rw [extract_athlete_and_country, if_neg hguard]
    have hscan := suffixScan_exact COUNTRY_NAMES_BY_LENGTH (cleanedCell cell_text) name
      hpair hname_mem heq
    show (match suffixScan COUNTRY_NAMES_BY_LENGTH (toLowerT (cleanedCell cell_text))
        (cleanedCell cell_text) with
      | some pr => (some pr.1, some pr.2)
      | none =>
        match wordScan COUNTRY_NAMES_BY_LENGTH (toLowerT (cleanedCell cell_text))
            (cleanedCell cell_text) with
        | some pr => (some pr.1, some pr.2)
        | none => (none, none)) = (some [], some noc)
    rw [hscan, hlook]
  · intro cell_text hsome
    rcases extract_pair_shape cell_text with h | ⟨a, n, h⟩
    · rw [h] at hsome
      simp at hsome
    · rw [h]
      exact ⟨a, rfl⟩

/-- Witness for C10 at a concrete input: the bare country cell resolves
to the empty athlete and the Swiss code, with a resolved second
component implying a present first component. -/
theorem claim_C10_team_credit_witness :
    extract_athlete_and_country (enc (r"Switzerland")) = (some [], some (enc (r"SUI"))) ∧
    (∃ a, (extract_athlete_and_country (enc (r"Switzerland"))).1 = some a) :=
  ⟨claim_C10_team_credit.1 (enc (r"Switzerland")) (enc (r"switzerland")) (enc (r"SUI"))
      (by decide) (by decide),
   claim_C10_team_credit.2.1 (enc (r"Switzerland")) (by decide)⟩
